import Mathlib

/-!
Verification of the Quant-Utilities toolkit: a CUSUM event filter
(`CumSumFilter`), a virtual-ETF return rebaser (`ETFTrick`) and an
embargoed time-series cross-validation splitter (`TimeSeriesEmbargoCV`).
Numeric values are embedded as rationals (exact arithmetic); the cached
derived quantities of `ETFTrick` are embedded as `Option` fields so that
the `KeyError`-raising accessors become `Except`-valued functions.
-/

set_option maxRecDepth 10000

namespace CumSumFilter

/-- The state of a `CumSumFilter` instance: the flattened input data,
the threshold `h`, and the `_events` list (initialised to `[]`). -/
structure State where
  data : List ℚ
  h : ℚ
  events : List Nat
  deriving Repr, DecidableEq

/-- `CumSumFilter.__init__`: stores the data and threshold and sets
`self._events = []`. -/
def init (data : List ℚ) (h : ℚ) : State :=
  { data := data, h := h, events := [] }

/-- The loop body of `CumSumFilter.filter`, with the two sequential
(non-elif) `if` tests inlined: `s_plus = max(0, s_plus + v)`,
`s_minus = min(0, s_minus + v)`; if `s_plus >= h` append `i` and reset
both accumulators; then test `abs(s_minus) >= h` against the possibly
reset `s_minus` (which is `0` after a first-branch reset) and append and
reset again if it holds. -/
def run (h : ℚ) : List ℚ → Nat → ℚ → ℚ → List Nat → List Nat
  | [], _, _, _, events => events
  | v :: rest, i, s_plus, s_minus, events =>
    let sp := max 0 (s_plus + v)
    let sm := min 0 (s_minus + v)
    if h ≤ sp then
      if h ≤ |(0 : ℚ)| then
        run h rest (i + 1) 0 0 ((events ++ [i]) ++ [i])
      else
        run h rest (i + 1) 0 0 (events ++ [i])
    else
      if h ≤ |sm| then
        run h rest (i + 1) 0 0 (events ++ [i])
      else
        run h rest (i + 1) sp sm events

/-- `CumSumFilter.filter()`: runs the CUSUM scan from index `0` with both
accumulators at `0` and an empty event list, returning the event list. -/
def filter (st : State) : List Nat :=
  run st.h st.data 0 0 0 []

/-- The `filtered_events` property: `self._data[self._events]` (NumPy
fancy indexing; `none` models an out-of-range `IndexError`). -/
def filtered_events (st : State) : Option (List ℚ) :=
  st.events.mapM (fun i => st.data[i]?)

/-- The `events_index` property: returns `self._events` unconditionally. -/
def events_index (st : State) : List Nat :=
  st.events

end CumSumFilter

/-- Claim C1 (counterexample): on `[0.1, 0.1, 0.1, -0.5, 0.4, 0.4]` with
`h = 0.3`, `filter()` does not return `[2, 3]`: after the reset at index
3 the values `0.4` at indices 4 and 5 each push `s_plus` to `0.4 ≥ 0.3`,
so both also trigger. -/
theorem c1_filter_not_two_three :
    CumSumFilter.filter
      (CumSumFilter.init [1/10, 1/10, 1/10, -1/2, 2/5, 2/5] (3/10)) ≠ [2, 3] := by
  norm_num [CumSumFilter.filter, CumSumFilter.init, CumSumFilter.run, abs, max_def]
  decide

/-- Claim C1 (amended): on `[0.1, 0.1, 0.1, -0.5, 0.4, 0.4]` with
`h = 0.3`, `filter()` returns exactly `[2, 3, 4, 5]`. -/
theorem c1_filter_events :
    CumSumFilter.filter
      (CumSumFilter.init [1/10, 1/10, 1/10, -1/2, 2/5, 2/5] (3/10)) = [2, 3, 4, 5] := by
  norm_num [CumSumFilter.filter, CumSumFilter.init, CumSumFilter.run, abs, max_def]

namespace CumSumFilter

/-- With a positive threshold, the CUSUM scan extends a strictly
increasing event list (all of whose entries lie below the current index)
into a strictly increasing event list: a step appends the current index
at most once, because after a first-branch reset the second test compares
`h` with `|0| = 0 < h`. -/
theorem run_pairwise {h : ℚ} (hpos : 0 < h) :
    ∀ (data : List ℚ) (i : Nat) (sp sm : ℚ) (events : List Nat),
      events.Pairwise (· < ·) → (∀ j ∈ events, j < i) →
      (run h data i sp sm events).Pairwise (· < ·)
  | [], _, _, _, _, hp, _ => by simpa [run] using hp
  | v :: rest, i, sp, sm, events, hp, hlt => by
    have hext : (events ++ [i]).Pairwise (· < ·) := by
      rw [List.pairwise_append]
      exact ⟨hp, List.pairwise_singleton _ _, by simpa using hlt⟩
    have hextlt : ∀ j ∈ events ++ [i], j < i + 1 := by
      intro j hj
      rcases List.mem_append.1 hj with hj | hj
      · exact Nat.lt_succ_of_lt (hlt j hj)
      · simp only [List.mem_singleton] at hj
        omega
    have hlt' : ∀ j ∈ events, j < i + 1 := fun j hj => Nat.lt_succ_of_lt (hlt j hj)
    rw [run]
    split_ifs with h1 h2 h3
    · exact absurd (by simpa using h2) (not_le.2 hpos)
    · exact run_pairwise hpos rest (i + 1) 0 0 (events ++ [i]) hext hextlt
    · exact run_pairwise hpos rest (i + 1) 0 0 (events ++ [i]) hext hextlt
    · exact run_pairwise hpos rest (i + 1) _ _ events hp hlt'

/-- With a non-positive threshold, every step fires both branches: the
scan appends each scanned index twice. -/
theorem run_nonpos {h : ℚ} (hle : h ≤ 0) :
    ∀ (data : List ℚ) (i : Nat) (sp sm : ℚ) (events : List Nat),
      run h data i sp sm events =
        events ++ (List.range' i data.length).flatMap (fun j => [j, j])
  | [], i, sp, sm, events => by simp [run]
  | v :: rest, i, sp, sm, events => by
    rw [run]
    have h1 : h ≤ max 0 (sp + v) := le_trans hle (le_max_left 0 _)
    have h2 : h ≤ |(0 : ℚ)| := by simpa using hle
    rw [if_pos h1, if_pos h2, run_nonpos hle rest (i + 1) 0 0 _]
    simp [List.range'_succ, List.flatMap_cons]

end CumSumFilter

/-- Claim C6: for every input sequence and positive threshold `h`, the
event index list returned by `filter()` is strictly increasing and free
of duplicates: a first-branch trigger resets both accumulators, so the
second test in the same step compares `h` with `|0| = 0 < h` and cannot
also fire. -/
theorem c6_events_strictly_increasing (data : List ℚ) (h : ℚ) (hpos : 0 < h) :
    (CumSumFilter.filter (CumSumFilter.init data h)).Pairwise (· < ·) ∧
    (CumSumFilter.filter (CumSumFilter.init data h)).Nodup := by
  have hp : (CumSumFilter.filter (CumSumFilter.init data h)).Pairwise (· < ·) :=
    CumSumFilter.run_pairwise hpos data 0 0 0 [] List.Pairwise.nil (by simp)
  exact ⟨hp, hp.imp Nat.ne_of_lt⟩

/-- Witness for C6 at `data = [2, -2]`, `h = 1`. -/
theorem c6_witness :
    (0 : ℚ) < 1 ∧
    ((CumSumFilter.filter (CumSumFilter.init [2, -2] 1)).Pairwise (· < ·) ∧
      (CumSumFilter.filter (CumSumFilter.init [2, -2] 1)).Nodup) :=
  ⟨by norm_num, c6_events_strictly_increasing [2, -2] 1 (by norm_num)⟩

/-- Claim C9: with a non-positive threshold `h ≤ 0`, `filter()` appends
every position of the sequence exactly twice (the `s_plus` branch always
fires since `s_plus ≥ 0 ≥ h`, and after the reset the `s_minus` test sees
`|0| ≥ h`), so the result lists each index twice and is not strictly
increasing. -/
theorem c9_nonpositive_threshold (data : List ℚ) (h : ℚ) (hle : h ≤ 0) :
    CumSumFilter.filter (CumSumFilter.init data h) =
      (List.range data.length).flatMap (fun j => [j, j]) := by
  simp only [CumSumFilter.filter, CumSumFilter.init]
  rw [CumSumFilter.run_nonpos hle data 0 0 0 []]
  simp [List.range_eq_range']

/-- Witness for C9 at `data = [5, 3]`, `h = 0`: the result is `[0, 0, 1, 1]`. -/
theorem c9_witness :
    (0 : ℚ) ≤ 0 ∧
    CumSumFilter.filter (CumSumFilter.init [5, 3] 0) =
      (List.range (([5, 3] : List ℚ).length)).flatMap (fun j => [j, j]) :=
  ⟨le_refl 0, c9_nonpositive_threshold [5, 3] 0 (le_refl 0)⟩

/-- `np.isclose(a, b)` with NumPy's default tolerances
`rtol = 1e-5`, `atol = 1e-8`: `|a - b| <= atol + rtol * |b|`. -/
def npIsclose (a b : ℚ) : Prop :=
  |a - b| ≤ 1 / 10 ^ 8 + 1 / 10 ^ 5 * |b|

instance (a b : ℚ) : Decidable (npIsclose a b) := by
  unfold npIsclose
  infer_instance

namespace ETFTrick

/-- The weight handling in `ETFTrick.__init__`: if the weight sum is not
`np.isclose` to `1.0` and `normalize_weights` holds, divide every weight
by the sum; otherwise keep the weights untouched. -/
def initWeights (weights : List ℚ) (normalize_weights : Bool) : List ℚ :=
  let total_weights := weights.sum
  if npIsclose total_weights 1 then weights
  else if normalize_weights then weights.map (fun w => w / total_weights)
  else weights

/-- `self._returns = (self._prices[1:] / self._prices[:-1]) - 1`:
row `t` of the returns pairs price row `t+1` with price row `t`,
elementwise `p_next / p_prev - 1`. -/
def computeReturns (prices : List (List ℚ)) : List (List ℚ) :=
  (prices.tail.zip prices.dropLast).map
    (fun p => (p.1.zip p.2).map (fun q => q.1 / q.2 - 1))

/-- Elementwise product of two equally shaped rows. -/
def mulRow (a b : List ℚ) : List ℚ :=
  (a.zip b).map (fun q => q.1 * q.2)

/-- Column-wise running product, the recursion behind
`np.cumprod(·, axis=0)`: each output row is the elementwise product of
the accumulator with the next input row. -/
def cumprodAux (acc : List ℚ) : List (List ℚ) → List (List ℚ)
  | [] => []
  | r :: rest => mulRow acc r :: cumprodAux (mulRow acc r) rest

/-- `np.cumprod(rows, axis=0)`, seeded with a row of ones of the matrix
width. -/
def cumprodCols (rows : List (List ℚ)) : List (List ℚ) :=
  cumprodAux (List.replicate (rows.headD []).length 1) rows

/-- `np.cumprod` on a one-dimensional array. -/
def cumprod1 (acc : ℚ) : List ℚ → List ℚ
  | [] => []
  | x :: rest => acc * x :: cumprod1 (acc * x) rest

/-- Dot product of a returns row with the weight vector (`@`). -/
def dot (xs ws : List ℚ) : ℚ :=
  ((xs.zip ws).map (fun q => q.1 * q.2)).sum

/-- `self._cumulative_returns = np.cumprod(self._returns + 1, axis=0)`. -/
def computeCumulativeReturns (rets : List (List ℚ)) : List (List ℚ) :=
  cumprodCols (rets.map (fun r => r.map (fun x => x + 1)))

/-- `self._etf_returns = self._returns @ self._weights`. -/
def computeEtfReturns (rets : List (List ℚ)) (ws : List ℚ) : List ℚ :=
  rets.map (fun r => dot r ws)

/-- `self._etf_cumulative_returns = np.cumprod(self._etf_returns + 1)`. -/
def computeEtfCumulativeReturns (etf : List ℚ) : List ℚ :=
  cumprod1 1 (etf.map (fun x => x + 1))

/-- The state of an `ETFTrick` instance: inputs plus the four derived
fields, each `none` until `fit()` stores it (an absent Python attribute). -/
structure State where
  prices : List (List ℚ)
  weights : List ℚ
  returns? : Option (List (List ℚ))
  cumulative_returns? : Option (List (List ℚ))
  etf_returns? : Option (List ℚ)
  etf_cumulative_returns? : Option (List ℚ)

/-- `ETFTrick.__init__`: stores prices and (possibly normalized) weights;
no derived attribute exists yet. -/
def init (prices : List (List ℚ)) (weights : List ℚ)
    (normalize_weights : Bool) : State :=
  { prices := prices
    weights := initWeights weights normalize_weights
    returns? := none
    cumulative_returns? := none
    etf_returns? := none
    etf_cumulative_returns? := none }

/-- `ETFTrick.fit()`: computes and stores the four derived quantities. -/
def fit (st : State) : State :=
  let rets := computeReturns st.prices
  { st with
    returns? := some rets
    cumulative_returns? := some (computeCumulativeReturns rets)
    etf_returns? := some (computeEtfReturns rets st.weights)
    etf_cumulative_returns? :=
      some (computeEtfCumulativeReturns (computeEtfReturns rets st.weights)) }

/-- The `returns` property: `KeyError` when `_returns` is absent. -/
def returns (st : State) : Except String (List (List ℚ)) :=
  match st.returns? with
  | none => Except.error "No returns found"
  | some r => Except.ok r

/-- The `cumulative_returns` property. -/
def cumulative_returns (st : State) : Except String (List (List ℚ)) :=
  match st.cumulative_returns? with
  | none => Except.error "No cumulative returns found"
  | some r => Except.ok r

/-- The `etf_returns` property. -/
def etf_returns (st : State) : Except String (List ℚ) :=
  match st.etf_returns? with
  | none => Except.error "No ETF returns found"
  | some r => Except.ok r

/-- The `etf_cumulative_returns` property. -/
def etf_cumulative_returns (st : State) : Except String (List ℚ) :=
  match st.etf_cumulative_returns? with
  | none => Except.error "No ETF cumulative returns found"
  | some r => Except.ok r

end ETFTrick

/-- Claim C2 (counterexample): on a freshly constructed `CumSumFilter`
(before `filter()` ran) the `filtered_events` accessor succeeds — it
fancy-indexes the data with the empty `_events` list and returns an empty
array — and `events_index` returns `[]`; neither raises a lookup error. -/
theorem c2_cusum_accessors_no_error :
    (CumSumFilter.filtered_events (CumSumFilter.init [1, 2] 1)).isSome = true ∧
    CumSumFilter.events_index (CumSumFilter.init [1, 2] 1) = [] :=
  ⟨rfl, rfl⟩

/-- Claim C2 (amended): before `fit()` every `ETFTrick` derived-quantity
accessor raises `KeyError`; but before `filter()` the `CumSumFilter`
accessors `filtered_events` and `events_index` do not raise — `_events`
is initialised to `[]`, so they return empty results. -/
theorem c2_accessors_before_producing_operation
    (prices : List (List ℚ)) (ws : List ℚ) (b : Bool)
    (data : List ℚ) (h : ℚ) :
    ETFTrick.returns (ETFTrick.init prices ws b) =
      Except.error "No returns found" ∧
    ETFTrick.cumulative_returns (ETFTrick.init prices ws b) =
      Except.error "No cumulative returns found" ∧
    ETFTrick.etf_returns (ETFTrick.init prices ws b) =
      Except.error "No ETF returns found" ∧
    ETFTrick.etf_cumulative_returns (ETFTrick.init prices ws b) =
      Except.error "No ETF cumulative returns found" ∧
    CumSumFilter.filtered_events (CumSumFilter.init data h) = some [] ∧
    CumSumFilter.events_index (CumSumFilter.init data h) = [] :=
  ⟨rfl, rfl, rfl, rfl, rfl, rfl⟩

/-- Dividing every list element by `t` divides the sum by `t`. -/
theorem sum_map_div (l : List ℚ) (t : ℚ) :
    (l.map (fun w => w / t)).sum = l.sum / t := by
  induction l with
  | nil => simp
  | cons a l ih => simp [ih, add_div]

/-- Claim C4 (counterexample): the weights `[0.5, 0.5 + 1e-7]` sum to
`S = 1 + 1e-7 ≠ 1`, yet with normalization enabled the constructor leaves
them untouched (`np.isclose(S, 1)` holds at tolerance
`1e-8 + 1e-5 ≈ 1e-5`, not `1e-8`), so the post-construction sum deviates
from `1` by `1e-7 > 1e-8`. -/
theorem c4_weights_inside_isclose_band :
    (([1/2, 1/2 + 1/10^7] : List ℚ).sum ≠ 1) ∧
    ¬ |(ETFTrick.initWeights [1/2, 1/2 + 1/10^7] true).sum - 1| ≤ 1/10^8 := by
  constructor
  · norm_num
  · norm_num [ETFTrick.initWeights, npIsclose, abs]

/-- Claim C4 (amended): for weights whose sum `S` is nonzero and outside
the `np.isclose` band around `1` (`|S - 1| > 1e-8 + 1e-5·|1|`),
construction with normalization enabled rescales each weight to
`original / S`, and the rescaled weights sum to exactly `1`; the decision
to rescale uses the `np.isclose` tolerance `1e-8 + 1e-5`, not a pure
`1e-8`-scale tolerance. -/
theorem c4_normalization (ws : List ℚ) (hS : ws.sum ≠ 0)
    (hfar : ¬ npIsclose ws.sum 1) :
    (ETFTrick.initWeights ws true).sum = 1 ∧
    ∀ i : Nat, (ETFTrick.initWeights ws true).getD i 0 = ws.getD i 0 / ws.sum := by
  constructor
  · simp [ETFTrick.initWeights, hfar, sum_map_div, div_self hS]
  · intro i
    simp only [ETFTrick.initWeights, if_neg hfar, if_pos trivial]
    by_cases hi : i < ws.length
    · rw [List.getD_eq_getElem _ _ (by simpa using hi),
        List.getD_eq_getElem _ _ hi, List.getElem_map]
    · rw [List.getD_eq_default _ _ (by simpa using Nat.le_of_not_lt hi),
        List.getD_eq_default _ _ (Nat.le_of_not_lt hi), zero_div]

/-- Witness for C4 at `ws = [2, 2]`: `S = 4` is outside the band, the
normalized weights are `[1/2, 1/2]` with sum `1` and entry `2 / 4`. -/
theorem c4_witness :
    (([2, 2] : List ℚ).sum ≠ 0 ∧ ¬ npIsclose (([2, 2] : List ℚ).sum) 1) ∧
    ((ETFTrick.initWeights [2, 2] true).sum = 1 ∧
      ∀ i : Nat, (ETFTrick.initWeights [2, 2] true).getD i 0 =
        (([2, 2] : List ℚ).getD i 0) / (([2, 2] : List ℚ).sum)) :=
  ⟨⟨by norm_num, by norm_num [npIsclose]⟩,
    c4_normalization [2, 2] (by norm_num) (by norm_num [npIsclose])⟩

namespace ETFTrick

/-- The elementwise product of rows reads off entrywise. -/
theorem mulRow_getD (a b : List ℚ) (j : Nat)
    (hja : j < a.length) (hjb : j < b.length) :
    (mulRow a b).getD j 0 = a.getD j 0 * b.getD j 0 := by
  have hj : j < (mulRow a b).length := by
    simp only [mulRow, List.length_map, List.length_zip]
    omega
  rw [List.getD_eq_getElem _ _ hj, List.getD_eq_getElem _ _ hja,
    List.getD_eq_getElem _ _ hjb]
  simp [mulRow, List.getElem_zip]

/-- An entry of the column-wise running product is the accumulator entry
times the product of the column entries scanned so far. -/
theorem cumprodAux_getD (N : Nat) :
    ∀ (rows : List (List ℚ)) (acc : List ℚ) (t j : Nat),
      acc.length = N → (∀ r ∈ rows, r.length = N) →
      t < rows.length → j < N →
      ((cumprodAux acc rows).getD t []).getD j 0 =
        acc.getD j 0 * ((rows.take (t + 1)).map (fun r => r.getD j 0)).prod
  | [], _, t, _, _, _, ht, _ => absurd ht (by simp)
  | r :: rest, acc, 0, j, hacc, hrows, _, hj => by
    have hr : r.length = N := hrows r (by simp)
    simp only [cumprodAux, List.getD_cons_zero, List.take_succ_cons,
      List.take_zero, List.map_cons, List.map_nil, List.prod_cons,
      List.prod_nil, mul_one]
    exact mulRow_getD acc r j (by omega) (by omega)
  | r :: rest, acc, t + 1, j, hacc, hrows, ht, hj => by
    have hr : r.length = N := hrows r (by simp)
    have hlen : (mulRow acc r).length = N := by
      simp only [mulRow, List.length_map, List.length_zip]
      omega
    have ih := cumprodAux_getD N rest (mulRow acc r) t j hlen
      (fun q hq => hrows q (by simp [hq])) (by simpa using ht) hj
    simp only [cumprodAux, List.getD_cons_succ, List.take_succ_cons,
      List.map_cons, List.prod_cons]
    rw [ih, mulRow_getD acc r j (by omega) (by omega), mul_assoc]

/-- `np.cumprod(·, axis=0)` entry `(t, j)` equals the product of the
first `t + 1` entries of column `j`, for a rectangular matrix. -/
theorem cumprodCols_getD (rows : List (List ℚ)) (N t j : Nat)
    (hrows : ∀ r ∈ rows, r.length = N) (ht : t < rows.length) (hj : j < N) :
    ((cumprodCols rows).getD t []).getD j 0 =
      ((rows.take (t + 1)).map (fun r => r.getD j 0)).prod := by
  have hhead : (rows.headD []).length = N := by
    cases rows with
    | nil => simp at ht
    | cons r rest => exact hrows r (by simp)
  have hone : (List.replicate (rows.headD []).length (1 : ℚ)).getD j 0 = 1 := by
    rw [List.getD_eq_getElem _ _ (by rw [List.length_replicate, hhead]; exact hj)]
    simp
  rw [cumprodCols, cumprodAux_getD N rows _ t j
    (by rw [List.length_replicate]; exact hhead) hrows ht hj, hone, one_mul]

/-- `np.cumprod` on a vector: entry `t` is the product of the first
`t + 1` entries, times the seed. -/
theorem cumprod1_getD :
    ∀ (xs : List ℚ) (a : ℚ) (t : Nat), t < xs.length →
      (cumprod1 a xs).getD t 0 = a * (xs.take (t + 1)).prod
  | [], _, t, ht => absurd ht (by simp)
  | x :: rest, a, 0, _ => by simp [cumprod1]
  | x :: rest, a, t + 1, ht => by
    simp only [cumprod1, List.getD_cons_succ, List.take_succ_cons,
      List.prod_cons]
    rw [cumprod1_getD rest (a * x) t (by simpa using ht), mul_assoc]

/-- The returns matrix of a rectangular price matrix is rectangular of
the same width. -/
theorem computeReturns_length (prices : List (List ℚ)) (N : Nat)
    (hrect : ∀ r ∈ prices, r.length = N) :
    ∀ r ∈ computeReturns prices, r.length = N := by
  intro r hr
  simp only [computeReturns, List.mem_map] at hr
  obtain ⟨⟨a, b⟩, hp, rfl⟩ := hr
  obtain ⟨ha, hb⟩ := List.of_mem_zip hp
  have hla : a.length = N := hrect a (List.mem_of_mem_tail ha)
  have hlb : b.length = N := hrect b (List.dropLast_subset _ hb)
  simp only [List.length_map, List.length_zip]
  omega

end ETFTrick

/-- Claim C7: after `fit()`, entry `(t, j)` of the cumulative returns is
the product over `k = 0..t` of `(1 + returns[k, j])`, and entry `t` of
the cumulative ETF returns is the product over `k = 0..t` of
`(1 + etf_returns[k])` — exactly, over exact (rational) arithmetic. -/
theorem c7_cumprod_roundtrip (prices : List (List ℚ)) (ws : List ℚ)
    (N t j : Nat) (hrect : ∀ r ∈ prices, r.length = N)
    (ht : t < (ETFTrick.computeReturns prices).length) (hj : j < N) :
    ((ETFTrick.computeCumulativeReturns
        (ETFTrick.computeReturns prices)).getD t []).getD j 0 =
      (((ETFTrick.computeReturns prices).take (t + 1)).map
        (fun r => 1 + r.getD j 0)).prod ∧
    (ETFTrick.computeEtfCumulativeReturns
        (ETFTrick.computeEtfReturns (ETFTrick.computeReturns prices) ws)).getD t 0 =
      (((ETFTrick.computeEtfReturns (ETFTrick.computeReturns prices) ws).take (t + 1)).map
        (fun x => 1 + x)).prod := by
  set rets := ETFTrick.computeReturns prices with hrets
  have hretsN : ∀ r ∈ rets, r.length = N :=
    ETFTrick.computeReturns_length prices N hrect
  constructor
  · have hrowsN : ∀ r ∈ rets.map (fun r => r.map (fun x => x + 1)),
        r.length = N := by
      intro r hr
      simp only [List.mem_map] at hr
      obtain ⟨q, hq, rfl⟩ := hr
      simp [hretsN q hq]
    have hcols := ETFTrick.cumprodCols_getD
      (rets.map (fun r => r.map (fun x => x + 1))) N t j hrowsN
      (by simpa using ht) hj
    rw [ETFTrick.computeCumulativeReturns, hcols, ← List.map_take, List.map_map]
    refine congrArg List.prod (List.map_congr_left ?_)
    intro r hr
    have hlr : r.length = N := hretsN r (List.take_subset _ _ hr)
    simp only [Function.comp_apply]
    rw [List.getD_eq_getElem _ _ (by simp [hlr, hj] : j < (r.map fun x => x + 1).length),
      List.getD_eq_getElem _ _ (by omega : j < r.length), List.getElem_map, add_comm]
  · have hlen : t < ((ETFTrick.computeEtfReturns rets ws).map (fun x => x + 1)).length := by
      simpa [ETFTrick.computeEtfReturns] using ht
    rw [ETFTrick.computeEtfCumulativeReturns, ETFTrick.cumprod1_getD _ 1 t hlen,
      one_mul, ← List.map_take]
    refine congrArg List.prod (List.map_congr_left ?_)
    intro x _
    exact add_comm x 1

/-- Witness for C7 at prices `[[1, 2], [2, 2], [4, 1]]`,
weights `[1/2, 1/2]`, `t = 1`, `j = 1`. -/
theorem c7_witness :
    ((∀ r ∈ ([[1, 2], [2, 2], [4, 1]] : List (List ℚ)), r.length = 2) ∧
      1 < (ETFTrick.computeReturns [[1, 2], [2, 2], [4, 1]]).length ∧ 1 < 2) ∧
    (((ETFTrick.computeCumulativeReturns
        (ETFTrick.computeReturns [[1, 2], [2, 2], [4, 1]])).getD 1 []).getD 1 0 =
      (((ETFTrick.computeReturns [[1, 2], [2, 2], [4, 1]]).take 2).map
        (fun r => 1 + r.getD 1 0)).prod ∧
    (ETFTrick.computeEtfCumulativeReturns
        (ETFTrick.computeEtfReturns
          (ETFTrick.computeReturns [[1, 2], [2, 2], [4, 1]]) [1/2, 1/2])).getD 1 0 =
      (((ETFTrick.computeEtfReturns
          (ETFTrick.computeReturns [[1, 2], [2, 2], [4, 1]]) [1/2, 1/2]).take 2).map
        (fun x => 1 + x)).prod) :=
  ⟨⟨by simp, by simp [ETFTrick.computeReturns], by omega⟩,
    c7_cumprod_roundtrip [[1, 2], [2, 2], [4, 1]] [1/2, 1/2] 2 1 1
      (by simp) (by simp [ETFTrick.computeReturns]) (by omega)⟩

namespace TimeSeriesEmbargoCV

/-- `fold_size = int(n_samples / self.n_splits)`. -/
def fold_size (cv n : Nat) : Nat := n / cv

/-- `get_n_splits`: `n_possible_splits = (n_samples - embargo_size) //
fold_size` (Python floor division over ints, so the numerator may be
negative), then `min(self.n_splits, n_possible_splits)`. -/
def get_n_splits (cv embargo_size n : Nat) : Int :=
  let n_possible_splits : Int :=
    Int.fdiv ((n : Int) - (embargo_size : Int)) ((fold_size cv n : Nat) : Int)
  min ((cv : Nat) : Int) n_possible_splits

/-- `np.arange(a, b)`: the integers from `a` (inclusive) to `b`
(exclusive), empty when `b <= a`. -/
def arange (a b : Nat) : List Nat := List.range' a (b - a)

/-- The generator loop of `split`: for `i` in `range(n_actual_splits)`,
compute the fold boundaries and stop (`break`) as soon as
`test_end_idx > n_samples`; `k` counts the remaining iterations. -/
def splitGo (fs embargo_size n : Nat) : Nat → Nat → List (List Nat × List Nat)
  | 0, _ => []
  | k + 1, i =>
    let train_start_idx := i * fs
    let train_end_idx := i * fs + fs
    let test_start_idx := train_end_idx + embargo_size
    let test_end_idx := test_start_idx + fs - embargo_size
    if n < test_end_idx then []
    else (arange train_start_idx train_end_idx, arange test_start_idx test_end_idx)
      :: splitGo fs embargo_size n k (i + 1)

/-- `split`: materialises the folds the generator yields, iterating
`range(self.get_n_splits(X))` (empty when that count is not positive). -/
def split (cv embargo_size n : Nat) : List (List Nat × List Nat) :=
  splitGo (fold_size cv n) embargo_size n (get_n_splits cv embargo_size n).toNat 0

/-- Membership in `arange a b` is exactly `a ≤ m < b`. -/
theorem mem_arange {a b m : Nat} : m ∈ arange a b ↔ a ≤ m ∧ m < b := by
  rw [arange, List.mem_range']
  constructor
  · rintro ⟨i, hi, rfl⟩
    omega
  · rintro ⟨h1, h2⟩
    exact ⟨m - a, by omega, by omega⟩

/-- `range'` with step 1 is a chain of successors. -/
theorem chain_range' : ∀ (len a : Nat),
    List.Chain' (fun p q => q = p + 1) (List.range' a len) := by
  intro len
  induction len with
  | zero => intro a; simp
  | succ k ih =>
    intro a
    rw [List.range'_succ]
    cases k with
    | zero => simp
    | succ m =>
      rw [List.range'_succ]
      refine List.Chain'.cons rfl ?_
      rw [← List.range'_succ]
      exact ih (a + 1)

/-- `arange a b` is a contiguous increasing integer range. -/
theorem chain_arange (a b : Nat) :
    List.Chain' (fun p q => q = p + 1) (arange a b) :=
  chain_range' (b - a) a

/-- Shape of the `j`-th yielded fold: train `[(i0+j)·fs, (i0+j)·fs+fs)`,
test `[(i0+j)·fs+fs+e, (i0+j)·fs+2·fs)`. -/
theorem splitGo_getD (fs e n : Nat) :
    ∀ (k i0 j : Nat), j < (splitGo fs e n k i0).length →
      (splitGo fs e n k i0).getD j ([], []) =
        (arange ((i0 + j) * fs) ((i0 + j) * fs + fs),
          arange ((i0 + j) * fs + fs + e) ((i0 + j) * fs + fs + fs))
  | 0, _, j, hj => absurd hj (by simp [splitGo])
  | k + 1, i0, j, hj => by
    simp only [splitGo] at hj ⊢
    by_cases hb : n < i0 * fs + fs + e + fs - e
    · rw [if_pos hb] at hj
      simp at hj
    · rw [if_neg hb] at hj ⊢
      cases j with
      | zero =>
        have harg : i0 * fs + fs + e + fs - e = i0 * fs + fs + fs := by omega
        simp only [List.getD_cons_zero, Nat.add_zero, harg]
      | succ s =>
        have ih := splitGo_getD fs e n k (i0 + 1) s (by simpa using hj)
        have hidx : i0 + 1 + s = i0 + (s + 1) := by omega
        rw [hidx] at ih
        simpa using ih

end TimeSeriesEmbargoCV

/-- Claim C3: with `cv = 5`, `embargo_size = 0` and sequence length 100,
`get_n_splits` reports 5 folds but `split` yields only 4: the fifth fold
would need `test = [100, 120)`, whose end exceeds the sequence length, so
the generator breaks before yielding it. -/
theorem c3_get_n_splits_overcounts :
    TimeSeriesEmbargoCV.get_n_splits 5 0 100 = 5 ∧
    (TimeSeriesEmbargoCV.split 5 0 100).length = 4 := by
  decide

/-- Claim C5 (counterexample): with `cv = 5`, `embargo_size = 0`,
sequence length 100, index 20 lies in both fold 0's test range and
fold 1's train range, so the ranges of distinct folds are not pairwise
non-overlapping. -/
theorem c5_ranges_overlap_across_folds :
    20 ∈ ((TimeSeriesEmbargoCV.split 5 0 100).getD 0 ([], [])).2 ∧
    20 ∈ ((TimeSeriesEmbargoCV.split 5 0 100).getD 1 ([], [])).1 := by
  decide

/-- Claim C5 (amended): every yielded fold `k` is a pair of contiguous
increasing integer ranges, train `[k·fs, (k+1)·fs)` and test
`[(k+1)·fs + e, (k+2)·fs)`, and within each fold every train index plus
the embargo is below every test index; ranges of distinct folds may
overlap (with `e = 0` a fold's test range coincides with the next fold's
train range). -/
theorem c5_fold_invariants (cv e n k : Nat)
    (hk : k < (TimeSeriesEmbargoCV.split cv e n).length) :
    ((TimeSeriesEmbargoCV.split cv e n).getD k ([], [])).1 =
      TimeSeriesEmbargoCV.arange (k * TimeSeriesEmbargoCV.fold_size cv n)
        (k * TimeSeriesEmbargoCV.fold_size cv n + TimeSeriesEmbargoCV.fold_size cv n) ∧
    ((TimeSeriesEmbargoCV.split cv e n).getD k ([], [])).2 =
      TimeSeriesEmbargoCV.arange
        (k * TimeSeriesEmbargoCV.fold_size cv n + TimeSeriesEmbargoCV.fold_size cv n + e)
        (k * TimeSeriesEmbargoCV.fold_size cv n + TimeSeriesEmbargoCV.fold_size cv n +
          TimeSeriesEmbargoCV.fold_size cv n) ∧
    List.Chain' (fun p q => q = p + 1)
      ((TimeSeriesEmbargoCV.split cv e n).getD k ([], [])).1 ∧
    List.Chain' (fun p q => q = p + 1)
      ((TimeSeriesEmbargoCV.split cv e n).getD k ([], [])).2 ∧
    ∀ x ∈ ((TimeSeriesEmbargoCV.split cv e n).getD k ([], [])).1,
      ∀ y ∈ ((TimeSeriesEmbargoCV.split cv e n).getD k ([], [])).2, x + e < y := by
  have hfold := TimeSeriesEmbargoCV.splitGo_getD
    (TimeSeriesEmbargoCV.fold_size cv n) e n
    (TimeSeriesEmbargoCV.get_n_splits cv e n).toNat 0 k (by simpa using hk)
  rw [Nat.zero_add] at hfold
  rw [TimeSeriesEmbargoCV.split, hfold]
  refine ⟨rfl, rfl, TimeSeriesEmbargoCV.chain_arange _ _,
    TimeSeriesEmbargoCV.chain_arange _ _, ?_⟩
  intro x hx y hy
  rw [TimeSeriesEmbargoCV.mem_arange] at hx hy
  omega

/-- Witness for C5 at `cv = 5`, `e = 0`, `n = 100`, fold 0. -/
theorem c5_witness :
    0 < (TimeSeriesEmbargoCV.split 5 0 100).length ∧
    (((TimeSeriesEmbargoCV.split 5 0 100).getD 0 ([], [])).1 =
        TimeSeriesEmbargoCV.arange 0 20 ∧
      ((TimeSeriesEmbargoCV.split 5 0 100).getD 0 ([], [])).2 =
        TimeSeriesEmbargoCV.arange 20 40 ∧
      List.Chain' (fun p q => q = p + 1)
        ((TimeSeriesEmbargoCV.split 5 0 100).getD 0 ([], [])).1 ∧
      List.Chain' (fun p q => q = p + 1)
        ((TimeSeriesEmbargoCV.split 5 0 100).getD 0 ([], [])).2 ∧
      ∀ x ∈ ((TimeSeriesEmbargoCV.split 5 0 100).getD 0 ([], [])).1,
        ∀ y ∈ ((TimeSeriesEmbargoCV.split 5 0 100).getD 0 ([], [])).2, x + 0 < y) :=
  ⟨by decide, by simpa using c5_fold_invariants 5 0 100 0 (by decide)⟩

/-- Claim C8: whenever `fold_size = n / cv` is nonzero, `get_n_splits`
returns `min(cv, (n - e) // fold_size)` (Python floor division); in
particular for `cv = 5`, `e = 3`, `n = 100` it returns 4 and `split`
yields exactly 4 folds, each with a 20-wide train range and a 17-wide
test range starting 3 positions after the train range ends. -/
theorem c8_n_splits_formula (cv e n : Nat)
    (_hfs : TimeSeriesEmbargoCV.fold_size cv n ≠ 0) :
    TimeSeriesEmbargoCV.get_n_splits cv e n =
      min ((cv : Nat) : Int)
        (Int.fdiv ((n : Int) - (e : Int))
          ((TimeSeriesEmbargoCV.fold_size cv n : Nat) : Int)) ∧
    TimeSeriesEmbargoCV.get_n_splits 5 3 100 = 4 ∧
    TimeSeriesEmbargoCV.split 5 3 100 =
      [(TimeSeriesEmbargoCV.arange 0 20, TimeSeriesEmbargoCV.arange 23 40),
        (TimeSeriesEmbargoCV.arange 20 40, TimeSeriesEmbargoCV.arange 43 60),
        (TimeSeriesEmbargoCV.arange 40 60, TimeSeriesEmbargoCV.arange 63 80),
        (TimeSeriesEmbargoCV.arange 60 80, TimeSeriesEmbargoCV.arange 83 100)] := by
  refine ⟨rfl, by decide, by decide⟩

/-- Witness for C8 at `cv = 5`, `e = 3`, `n = 100`. -/
theorem c8_witness :
    TimeSeriesEmbargoCV.fold_size 5 100 ≠ 0 ∧
    (TimeSeriesEmbargoCV.get_n_splits 5 3 100 =
        min ((5 : Nat) : Int)
          (Int.fdiv ((100 : Int) - (3 : Int))
            ((TimeSeriesEmbargoCV.fold_size 5 100 : Nat) : Int)) ∧
      TimeSeriesEmbargoCV.get_n_splits 5 3 100 = 4 ∧
      TimeSeriesEmbargoCV.split 5 3 100 =
        [(TimeSeriesEmbargoCV.arange 0 20, TimeSeriesEmbargoCV.arange 23 40),
          (TimeSeriesEmbargoCV.arange 20 40, TimeSeriesEmbargoCV.arange 43 60),
          (TimeSeriesEmbargoCV.arange 40 60, TimeSeriesEmbargoCV.arange 63 80),
          (TimeSeriesEmbargoCV.arange 60 80, TimeSeriesEmbargoCV.arange 83 100)]) :=
  ⟨by decide, c8_n_splits_formula 5 3 100 (by decide)⟩

/-- Claim C10: whenever `fold_size = n / cv` is nonzero and
`embargo_size > n`, `get_n_splits` returns a negative number (the floor
division of the negative numerator), and `split` yields no folds because
`range` of a negative count is empty; concretely
`get_n_splits(cv=5, e=150, n=100) = -3`. -/
theorem c10_negative_n_splits (cv e n : Nat)
    (hfs : TimeSeriesEmbargoCV.fold_size cv n ≠ 0) (he : n < e) :
    TimeSeriesEmbargoCV.get_n_splits cv e n < 0 ∧
    TimeSeriesEmbargoCV.split cv e n = [] ∧
    TimeSeriesEmbargoCV.get_n_splits 5 150 100 = -3 := by
  have hb : (0 : Int) < ((TimeSeriesEmbargoCV.fold_size cv n : Nat) : Int) := by
    exact_mod_cast Nat.pos_of_ne_zero hfs
  have hneg : Int.fdiv ((n : Int) - (e : Int))
      ((TimeSeriesEmbargoCV.fold_size cv n : Nat) : Int) < 0 := by
    rw [Int.fdiv_eq_ediv _ hb.le]
    exact Int.ediv_neg' (by omega) hb
  have hlt : TimeSeriesEmbargoCV.get_n_splits cv e n < 0 :=
    lt_of_le_of_lt (min_le_right _ _) hneg
  refine ⟨hlt, ?_, by decide⟩
  rw [TimeSeriesEmbargoCV.split, Int.toNat_eq_zero.2 hlt.le]
  rfl

/-- Witness for C10 at `cv = 5`, `e = 150`, `n = 100`. -/
theorem c10_witness :
    (TimeSeriesEmbargoCV.fold_size 5 100 ≠ 0 ∧ 100 < 150) ∧
    (TimeSeriesEmbargoCV.get_n_splits 5 150 100 < 0 ∧
      TimeSeriesEmbargoCV.split 5 150 100 = [] ∧
      TimeSeriesEmbargoCV.get_n_splits 5 150 100 = -3) :=
  ⟨⟨by decide, by decide⟩, c10_negative_n_splits 5 150 100 (by decide) (by decide)⟩
